import Mathlib

/-!
Verification development for the `Job-posts-visualization` repository
(single source file `app.py`, a Dash dashboard over a precomputed 2-D
embedding of job postings).

The embedding below translates the Python source into Lean:

* Python floats are modelled as exact rationals (`ℚ`); the float literals
  `0.8`, `0.85`, `0.75`, `0.9`, `0.95` of the source appear as the exact
  rationals `4/5`, `17/20`, `3/4`, `9/10`, `19/20`.
* CPython `int(s)` on a string is modelled by `pyInt?` (optional sign
  followed by ASCII decimal digits; `none` models `ValueError`).  `str(i)`
  on an integer is modelled by `intStr`.
* Python `dict` is modelled as an association list in insertion order,
  with `dictInsert` performing the update-or-append semantics of
  `d[k] = v`.
* Python `sorted` is modelled by `List.insertionSort (· ≤ ·)` (a stable
  sort; on integers and on strings the order is total and antisymmetric,
  which is all the proofs use).
* A Python function that can raise an uncaught exception is modelled with
  an `Option` result; `none` means the call raises.
* `x % 1.0` on a nonnegative float is `Int.fract`; `int(x)` on a float
  truncates toward zero (`pyTrunc`); `i % 6` on Python ints with positive
  modulus agrees with Lean `Int.emod`.
-/

namespace JobViz

/-- ASCII decimal digit test (code points 48–57), the digits accepted by
CPython `int()` in the ASCII range. -/
def isAsciiDigit (c : Char) : Bool :=
  48 ≤ c.toNat && c.toNat ≤ 57

/-- Numeric value of an ASCII digit character, `none` for any other
character.  Models `int(c)` for a single character `c`. -/
def digitVal? (c : Char) : Option Nat :=
  if 48 ≤ c.toNat ∧ c.toNat ≤ 57 then some (c.toNat - 48) else none

/-- Value of a list of digit characters read in base 10; `none` if some
character is not an ASCII digit. -/
def digitsCore : List Char → Option Nat
  | [] => some 0
  | c :: cs => do
      let d ← digitVal? c
      let r ← digitsCore cs
      pure (d * 10 ^ cs.length + r)

/-- Value of a nonempty list of digit characters; `none` on the empty
list or on a non-digit character. -/
def digitsVal? (cs : List Char) : Option Nat :=
  if cs.isEmpty then none else digitsCore cs

/-- Model of CPython `int(s)` for strings: an optional `-`/`+` sign
followed by one or more ASCII decimal digits; everything else raises
`ValueError`, modelled as `none`.  (Surrounding whitespace, underscore
separators and non-ASCII digits, which CPython also accepts, do not occur
in this code base and are not modelled.) -/
def pyInt? (s : String) : Option Int :=
  match s.data with
  | [] => none
  | c :: rest =>
    if c = '-' then (digitsVal? rest).map (fun n => -(n : Int))
    else if c = '+' then (digitsVal? rest).map (fun n => (n : Int))
    else (digitsVal? (c :: rest)).map (fun n => (n : Int))

/-- Decimal digit character for a value below 10 (the `_` arm is
unreachable in all uses, which pass `n % 10`). -/
def decDigitChar : Nat → Char
  | 0 => '0' | 1 => '1' | 2 => '2' | 3 => '3' | 4 => '4'
  | 5 => '5' | 6 => '6' | 7 => '7' | 8 => '8' | 9 => '9'
  | _ => '*'

/-- Decimal digit list of a natural number, most significant digit first;
`fuel` bounds the recursion depth and is always sufficient in `natToDec`. -/
def natToDecAux : Nat → Nat → List Char
  | 0, _ => []
  | fuel + 1, n =>
    if n < 10 then [decDigitChar n]
    else natToDecAux fuel (n / 10) ++ [decDigitChar (n % 10)]

/-- Decimal string of a natural number. -/
def natToDec (n : Nat) : String :=
  String.mk (natToDecAux (n + 1) n)

/-- Model of Python `str(i)` for an integer `i`. -/
def intStr (i : Int) : String :=
  if i < 0 then "-" ++ natToDec i.natAbs else natToDec i.toNat

/-- Lowercase hexadecimal digit character for a value below 16 (the `_`
arm is unreachable in all uses, which pass values below 16). -/
def hexDigitChar : Nat → Char
  | 0 => '0' | 1 => '1' | 2 => '2' | 3 => '3' | 4 => '4'
  | 5 => '5' | 6 => '6' | 7 => '7' | 8 => '8' | 9 => '9'
  | 10 => 'a' | 11 => 'b' | 12 => 'c' | 13 => 'd' | 14 => 'e'
  | 15 => 'f' | _ => '*'

/-- Lowercase hexadecimal digit list of a natural number, most
significant digit first; `fuel` is always sufficient in `natToHex`. -/
def natToHexAux : Nat → Nat → List Char
  | 0, _ => []
  | fuel + 1, n =>
    if n < 16 then [hexDigitChar n]
    else natToHexAux fuel (n / 16) ++ [hexDigitChar (n % 16)]

/-- Lowercase hexadecimal digit list of a natural number. -/
def natToHex (n : Nat) : List Char :=
  natToHexAux (n + 1) n

/-- Model of the Python format specifier `{i:02x}`: lowercase hex,
zero-padded to a minimum width of 2 (a sign counts toward the width). -/
def format02x (i : Int) : String :=
  if i < 0 then
    String.mk ('-' :: natToHex i.natAbs)
  else
    String.mk (if (natToHex i.toNat).length < 2
               then '0' :: natToHex i.toNat else natToHex i.toNat)

/-- Model of Python `int(x)` on a float: truncation toward zero. -/
def pyTrunc (q : ℚ) : ℤ :=
  if 0 ≤ q then ⌊q⌋ else ⌈q⌉

/-- Model of Python `x % 1.0` (for floats this is `x - floor x`, always
in `[0, 1)`). -/
def pyMod1 (x : ℚ) : ℚ :=
  Int.fract x

/-- Model of `colorsys.hsv_to_rgb` from the CPython standard library,
with floats as exact rationals.  The final branch corresponds to
`i == 5`; after `i % 6` with `i ≥ 0 → i % 6 ∈ [0, 6)` no other value can
reach it (colorsys marks the fall-through `# Cannot get here`). -/
def hsv_to_rgb (h s v : ℚ) : ℚ × ℚ × ℚ :=
  if s = 0 then (v, v, v)
  else
    let i0 : ℤ := pyTrunc (h * 6)
    let f : ℚ := h * 6 - (i0 : ℚ)
    let p : ℚ := v * (1 - s)
    let q : ℚ := v * (1 - s * f)
    let t : ℚ := v * (1 - s * (1 - f))
    let i : ℤ := i0 % 6
    if i = 0 then (v, t, p)
    else if i = 1 then (q, v, p)
    else if i = 2 then (p, v, t)
    else if i = 3 then (p, q, v)
    else if i = 4 then (t, p, v)
    else (v, p, q)

/-! ### The category color assigner (`generate_isco_grouped_colors`) -/

/-- Model of the exception-propagating list comprehension
`[int(code) for code in isco_categories]`: `none` as soon as one code
fails to parse. -/
def tryParseAll : List String → Option (List Int)
  | [] => some []
  | c :: cs =>
    match pyInt? c with
    | none => none
    | some v => (tryParseAll cs).map (fun vs => v :: vs)

/-- The sorted code list `sorted_isco` of `generate_isco_grouped_colors`
(app.py lines 27–37): numeric sort re-rendered through `str` when every
code parses as an integer, otherwise lexicographic string sort.  (The
`isco_map` dictionaries built in both branches of the source are never
used afterwards and are not modelled.) -/
def sortedCodes (isco_categories : List String) : List String :=
  match tryParseAll isco_categories with
  | some isco_integers =>
      (List.insertionSort (· ≤ ·) isco_integers).map intStr
  | none => List.insertionSort (· ≤ ·) isco_categories

/-- The sorted list of distinct major-group characters (app.py lines
41–46): first character of each nonempty code, as a set, sorted. -/
def majorGroupsOf (sorted_isco : List String) : List Char :=
  List.insertionSort (· ≤ ·) ((sorted_isco.filterMap (fun c => c.data.head?)).dedup)

/-- Base hue of a major group (app.py lines 50–54): the dict built by
`enumerate` over the sorted group list maps the group at index `i` to
`i * 0.8 / n_major_groups`; lookup is modelled through `indexOf`. -/
def majorGroupHueOf (groups : List Char) (g : Char) : ℚ :=
  ((groups.indexOf g : ℕ) : ℚ) * (4 / 5) / (groups.length : ℚ)

/-- The minor variation of a code (app.py lines 66–75): second character
parsed as a digit, scaled by `(0.8 / n) / 12`; a missing second character
or a failed parse gives 0. -/
def minorVariationOf (n : ℕ) (code : String) : ℚ :=
  match code.data with
  | _ :: c1 :: _ =>
    match digitVal? c1 with
    | some d => (d : ℚ) * ((4 / 5) / (n : ℚ)) / 12
    | none => 0
  | _ => 0

/-- The final hue of a code (app.py line 78): base hue of its major group
plus minor variation, taken `% 1.0`.  Only called on nonempty codes; the
`none` head case is unreachable. -/
def codeHueOf (groups : List Char) (code : String) : ℚ :=
  match code.data.head? with
  | some c0 => pyMod1 (majorGroupHueOf groups c0 + minorVariationOf groups.length code)
  | none => 0

/-- Color of one nonempty code (app.py lines 59–88).  `none` models the
uncaught `ValueError` raised by `int(major_group)` on line 82 when the
first character of the code is not a digit. -/
def colorFor (groups : List Char) (code : String) : Option String :=
  match code.data.head? with
  | none => none
  | some c0 =>
    match pyInt? (String.mk [c0]) with
    | none => none
    | some mg =>
      let hue := codeHueOf groups code
      let saturation : ℚ := if mg % 2 = 1 then 17 / 20 else 3 / 4
      let value : ℚ := if mg % 2 = 1 then 9 / 10 else 19 / 20
      let rgb := hsv_to_rgb hue saturation value
      some ("#" ++ format02x (pyTrunc (rgb.1 * 255))
            ++ format02x (pyTrunc (rgb.2.1 * 255))
            ++ format02x (pyTrunc (rgb.2.2 * 255)))

/-- Key list of an association-list dictionary. -/
def dictKeys (d : List (String × String)) : List String :=
  d.map Prod.fst

/-- Python `d[k] = v` on a dict modelled as an insertion-ordered
association list: overwrite an existing key in place, else append. -/
def dictInsert (d : List (String × String)) (k v : String) : List (String × String) :=
  if (dictKeys d).contains k then
    d.map (fun p => if p.1 = k then (k, v) else p)
  else d ++ [(k, v)]

/-- The `for code in sorted_isco` loop of app.py lines 58–88, building
the `colors` dict; empty codes are skipped by the `len(code) >= 1` guard,
and an exception inside the loop aborts the whole call (`none`). -/
def colorLoop (groups : List Char) (d : List (String × String)) :
    List String → Option (List (String × String))
  | [] => some d
  | code :: rest =>
    match code.data.head? with
    | none => colorLoop groups d rest
    | some _ =>
      match colorFor groups code with
      | none => none
      | some hex => colorLoop groups (dictInsert d code hex) rest

/-- The body of `generate_isco_grouped_colors` after the sort step, as a
function of the sorted code list. -/
def generateFromSorted (sorted_isco : List String) : Option (List (String × String)) :=
  colorLoop (majorGroupsOf sorted_isco) [] sorted_isco

/-- Model of `generate_isco_grouped_colors` (app.py lines 20–90): maps a
collection of category-code strings to a code → hex-color dictionary;
`none` models an uncaught exception. -/
def generate_isco_grouped_colors (isco_categories : List String) :
    Option (List (String × String)) :=
  generateFromSorted (sortedCodes isco_categories)

/-- Major groups of the original (unsorted) input, for readability in
theorem statements. -/
def majorGroups (isco_categories : List String) : List Char :=
  majorGroupsOf (sortedCodes isco_categories)

/-- Base hue of a group character for a given input collection. -/
def majorGroupHue (isco_categories : List String) (g : Char) : ℚ :=
  majorGroupHueOf (majorGroups isco_categories) g

/-- Final hue of a code for a given input collection. -/
def codeHue (isco_categories : List String) (code : String) : ℚ :=
  codeHueOf (majorGroups isco_categories) code

/-! ### The misclassified-jobs callbacks -/

/-- The contents of the module-level `last_clicked_data` dict after a
click has been handled (app.py lines 459–464, 469, 480, 535, 553).  The
empty initial dict is modelled as `Option.none` at use sites. -/
structure ClickedData where
  isco2d : String
  title_en : String
  x : ℚ
  y : ℚ
  title : String
  submajor_group_name : String
deriving DecidableEq

/-- One record of the `misclassified-jobs-store`: the clicked data plus
the timestamp and sequential id added by `add_to_misclassified`
(app.py lines 287–289). -/
structure MisEntry where
  isco2d : String
  title_en : String
  x : ℚ
  y : ℚ
  title : String
  submajor_group_name : String
  timestamp : String
  id : String
deriving DecidableEq

/-- The entry built by `add_to_misclassified` from the last clicked data:
a copy plus a timestamp and `id = str(len(current_data) + 1)`. -/
def mkMisEntry (lc : ClickedData) (now : String) (count : ℕ) : MisEntry :=
  { isco2d := lc.isco2d, title_en := lc.title_en, x := lc.x, y := lc.y,
    title := lc.title, submajor_group_name := lc.submajor_group_name,
    timestamp := now, id := intStr ((count : ℤ) + 1) }

/-- Model of the `add_to_misclassified` callback (app.py lines 281–307).
The wall clock is passed in as `now`; the global `last_clicked_data` is
passed as an `Option` (`none` = still the empty dict).  Returns the new
store contents and the feedback message text. -/
def add_to_misclassified (n_clicks : ℕ) (last_clicked : Option ClickedData)
    (now : String) (current_data : List MisEntry) : List MisEntry × String :=
  match last_clicked with
  | none => (current_data, "")
  | some lc =>
    if n_clicks = 0 then (current_data, "")
    else
      let entry := mkMisEntry lc now current_data.length
      if current_data.any (fun e => e.title_en = lc.title_en && e.isco2d = lc.isco2d) then
        (current_data, "This job is already in the misclassified list!")
      else
        (current_data ++ [entry], "Added to misclassified jobs list!")

/-- Model of the `clear_misclassified` callback (app.py lines 421–425):
resets the store and reports a feedback message. -/
def clear_misclassified (_n_clicks : ℕ) : List MisEntry × String :=
  ([], "Misclassified jobs list cleared!")

/-! ### The click handler (`display_click`) -/

/-- One row of the loaded dataframe, restricted to the columns
`display_click` reads. -/
structure Row where
  isco2d : String
  title_en : String
  title : String
  x : ℚ
  y : ℚ
deriving DecidableEq

/-- The clicked point as Dash delivers it: `customdata = [title_en,
isco2d]` plus the plotted coordinates. -/
structure ClickPoint where
  title_en : String
  isco2d : String
  x : ℚ
  y : ℚ
deriving DecidableEq

/-- Round to the nearest integer, ties to even — the rounding used by
Python `round` and pandas `Series.round`. -/
def roundHalfEven (q : ℚ) : ℤ :=
  if Int.fract q < 1 / 2 then ⌊q⌋
  else if 1 / 2 < Int.fract q then ⌊q⌋ + 1
  else if ⌊q⌋ % 2 = 0 then ⌊q⌋ else ⌊q⌋ + 1

/-- Model of `round(x, 3)` / `Series.round(3)`. -/
def pyRound3 (q : ℚ) : ℚ :=
  (roundHalfEven (q * 1000) : ℚ) / 1000

/-- The row-matching predicate of app.py lines 453–456: exact category
and translated-title equality plus coordinate equality after rounding
both sides to 3 decimal places. -/
def rowMatches (r : Row) (isco2d title_en : String) (x y : ℚ) : Bool :=
  r.isco2d = isco2d && r.title_en = title_en &&
  pyRound3 r.x = pyRound3 x && pyRound3 r.y = pyRound3 y

/-- The static ISCO-2D submajor-group display-name table of app.py lines
486–530. -/
def isco_submajor_groups : List (String × String) :=
  [("11", "Chief executives, senior officials and legislators"),
   ("12", "Administrative and commercial managers"),
   ("13", "Production and specialized services managers"),
   ("14", "Hospitality, retail and other services managers"),
   ("21", "Science and engineering professionals"),
   ("22", "Health professionals"),
   ("23", "Teaching professionals"),
   ("24", "Business and administration professionals"),
   ("25", "Information and communications technology professionals"),
   ("26", "Legal, social and cultural professionals"),
   ("31", "Science and engineering associate professionals"),
   ("32", "Health associate professionals"),
   ("33", "Business and administration associate professionals"),
   ("34", "Legal, social, cultural and related associate professionals"),
   ("35", "Information and communications technicians"),
   ("41", "General and keyboard clerks"),
   ("42", "Customer services clerks"),
   ("43", "Numerical and material recording clerks"),
   ("44", "Other clerical support workers"),
   ("51", "Personal service workers"),
   ("52", "Sales workers"),
   ("53", "Personal care workers"),
   ("54", "Protective services workers"),
   ("61", "Market-oriented skilled agricultural workers"),
   ("62", "Market-oriented skilled forestry, fishery and hunting workers"),
   ("63", "Subsistence farmers, fishers, hunters and gatherers"),
   ("71", "Building and related trades workers, excluding electricians"),
   ("72", "Metal, machinery and related trades workers"),
   ("73", "Handicraft and printing workers"),
   ("74", "Electrical and electronic trades workers"),
   ("75", "Food processing, wood working, garment and other craft and related trades workers"),
   ("81", "Stationary plant and machine operators"),
   ("82", "Assemblers"),
   ("83", "Drivers and mobile plant operators"),
   ("91", "Cleaners and helpers"),
   ("92", "Agricultural, forestry and fishery labourers"),
   ("93", "Labourers in mining, construction, manufacturing and transport"),
   ("94", "Food preparation assistants"),
   ("95", "Street and related sales and service workers"),
   ("96", "Refuse workers and other elementary workers"),
   ("101", "Commissioned armed forces officers"),
   ("102", "Non-commissioned armed forces officers"),
   ("103", "Armed forces occupations, other ranks")]

/-- The static ISCO major-group display-name table of app.py lines
540–551. -/
def isco_major_groups : List (String × String) :=
  [("1", "Managers"),
   ("2", "Professionals"),
   ("3", "Technicians and Associate Professionals"),
   ("4", "Clerical Support Workers"),
   ("5", "Service and Sales Workers"),
   ("6", "Skilled Agricultural, Forestry and Fishery Workers"),
   ("7", "Craft and Related Trades Workers"),
   ("8", "Plant and Machine Operators and Assemblers"),
   ("9", "Elementary Occupations"),
   ("10", "Armed Forces Occupations")]

/-- The details panel rendered by `display_click` (app.py lines
557–592), reduced to the data it displays. -/
structure Panel where
  isco2d : String
  submajor_group_name : String
  cat_color : String
  title : String
  title_en : String
  x : ℚ
  y : ℚ
deriving DecidableEq

/-- The major-group key derivation of app.py line 539, including its ad
hoc special-casing of `'1'` vs `'10'`.  Only reached for nonempty codes;
the `[]` arm is unreachable. -/
def fallbackMajorGroupKey (submajor_group : String) : String :=
  match submajor_group.data with
  | [] => ""
  | c0 :: rest =>
    if c0 ≠ '1' then String.mk [c0]
    else if rest.head? = some '0' then "10"
    else "1"

/-- Model of the `display_click` callback for an actual click event
(app.py lines 433–592; the `clickData is None` early prompt return is
outside this model).  Returns the rendered details panel together with
the new value of the global `last_clicked_data`. -/
def display_click (df : List Row) (color_map : List (String × String))
    (pt : ClickPoint) : Panel × ClickedData :=
  let isco2d := pt.isco2d
  let title_en := pt.title_en
  let matching_rows := df.filter (fun r => rowMatches r isco2d title_en pt.x pt.y)
  let title : String :=
    match matching_rows.head? with
    | some r => r.title
    | none => "Original title not available"
  let row_title_en : String :=
    match matching_rows.head? with
    | some r => r.title_en
    | none => title_en
  let cat_color := (List.lookup isco2d color_map).getD "#333333"
  let name0 := (List.lookup isco2d isco_submajor_groups).getD ""
  let submajor_group_name :=
    if name0 = "" ∧ isco2d.data ≠ [] then
      "(In " ++ ((List.lookup (fallbackMajorGroupKey isco2d) isco_major_groups).getD
        "Unknown Group") ++ ")"
    else name0
  ({ isco2d := isco2d, submajor_group_name := submajor_group_name,
     cat_color := cat_color, title := title, title_en := row_title_en,
     x := pt.x, y := pt.y },
   { isco2d := isco2d, title_en := title_en, x := pt.x, y := pt.y,
     title := title, submajor_group_name := submajor_group_name })

/-! ### Reachable states of the misclassified-jobs store -/

/-- The store states reachable from the initial empty list through the
two callbacks that write to `misclassified-jobs-store`. -/
inductive ReachableStore : List MisEntry → Prop
  | init : ReachableStore []
  | add (n_clicks : ℕ) (last_clicked : Option ClickedData) (now : String)
      {s : List MisEntry} :
      ReachableStore s → ReachableStore (add_to_misclassified n_clicks last_clicked now s).1
  | clear (n_clicks : ℕ) {s : List MisEntry} :
      ReachableStore s → ReachableStore (clear_misclassified n_clicks).1

/-! ### Spec-side predicates for the claims -/

/-- Lowercase hexadecimal digit character (`0`–`9`, `a`–`f`). -/
def isLowerHexDigitChar (c : Char) : Bool :=
  (48 ≤ c.toNat && c.toNat ≤ 57) || (97 ≤ c.toNat && c.toNat ≤ 102)

/-- A valid 6-digit lowercase hexadecimal color string prefixed with
`#`, the output format claimed by the spec. -/
def validHexColor (s : String) : Bool :=
  match s.data with
  | '#' :: ds => ds.length = 6 && ds.all isLowerHexDigitChar
  | _ => false

/-- Circular distance between two hue values on the hue circle of
circumference 1. -/
def hueDist (a b : ℚ) : ℚ :=
  min (Int.fract (a - b)) (Int.fract (b - a))

/-- The first character of the string exists and is an ASCII digit. -/
def headIsDigit (s : String) : Bool :=
  match s.data with
  | c :: _ => isAsciiDigit c
  | [] => false

/-- The entry at 0-based index `i` of the store carries the decimal id
`str(i + 1)`: ids are consecutive starting at `"1"`. -/
def idsSequential (s : List MisEntry) : Prop :=
  ∀ i : ℕ, ∀ hi : i < s.length, (s.get ⟨i, hi⟩).id = intStr ((i : ℤ) + 1)

/-! ## Helper lemmas -/

theorem tryParseAll_isSome_iff (l : List String) :
    (tryParseAll l).isSome ↔ ∀ c ∈ l, (pyInt? c).isSome := by
  induction l with
  | nil => simp [tryParseAll]
  | cons c cs ih =>
    cases h : pyInt? c with
    | none => simp [tryParseAll, h]
    | some v => simp [tryParseAll, h, ih]

theorem tryParseAll_eq_some (l : List String) (h : ∀ c ∈ l, (pyInt? c).isSome) :
    tryParseAll l = some (l.map fun c => (pyInt? c).getD 0) := by
  induction l with
  | nil => simp [tryParseAll]
  | cons c cs ih =>
    have hc := h c (by simp)
    rcases Option.isSome_iff_exists.mp hc with ⟨v, hv⟩
    have hcs : ∀ x ∈ cs, (pyInt? x).isSome := fun x hx => h x (by simp [hx])
    simp [tryParseAll, hv, ih hcs]

theorem sortedCodes_perm_eq (l1 l2 : List String) (h : List.Perm l1 l2) :
    sortedCodes l1 = sortedCodes l2 := by
  by_cases hall : ∀ c ∈ l1, (pyInt? c).isSome
  · have hall2 : ∀ c ∈ l2, (pyInt? c).isSome := fun c hc => hall c (h.mem_iff.mpr hc)
    have hperm : List.Perm (l1.map fun c => (pyInt? c).getD 0)
        (l2.map fun c => (pyInt? c).getD 0) := h.map _
    have hsort : List.insertionSort (· ≤ ·) (l1.map fun c => (pyInt? c).getD 0) =
        List.insertionSort (· ≤ ·) (l2.map fun c => (pyInt? c).getD 0) :=
      List.eq_of_perm_of_sorted
        (((List.perm_insertionSort _ _).trans hperm).trans
          (List.perm_insertionSort _ _).symm)
        (List.sorted_insertionSort _ _) (List.sorted_insertionSort _ _)
    simp only [sortedCodes, tryParseAll_eq_some l1 hall, tryParseAll_eq_some l2 hall2, hsort]
  · have hall2 : ¬ ∀ c ∈ l2, (pyInt? c).isSome :=
      fun hf => hall fun c hc => hf c (h.mem_iff.mp hc)
    have h1 : tryParseAll l1 = none :=
      Option.not_isSome_iff_eq_none.mp (mt (tryParseAll_isSome_iff l1).mp hall)
    have h2 : tryParseAll l2 = none :=
      Option.not_isSome_iff_eq_none.mp (mt (tryParseAll_isSome_iff l2).mp hall2)
    have hsort : List.insertionSort (· ≤ ·) l1 = List.insertionSort (· ≤ ·) l2 :=
      List.eq_of_perm_of_sorted
        (((List.perm_insertionSort _ _).trans h).trans
          (List.perm_insertionSort _ _).symm)
        (List.sorted_insertionSort _ _) (List.sorted_insertionSort _ _)
    simp only [sortedCodes, h1, h2, hsort]

theorem majorGroupsOf_nodup (s : List String) : (majorGroupsOf s).Nodup :=
  (List.perm_insertionSort _ _).nodup_iff.mpr (List.nodup_dedup _)

theorem digitVal?_of_digit (c : Char) (h : isAsciiDigit c = true) :
    digitVal? c = some (c.toNat - 48) := by
  have h' : 48 ≤ c.toNat ∧ c.toNat ≤ 57 := by
    simpa [isAsciiDigit] using h
  simp [digitVal?, h']

theorem digitVal?_le_nine (c : Char) (d : ℕ) (h : digitVal? c = some d) : d ≤ 9 := by
  unfold digitVal? at h
  split_ifs at h with hc
  simp only [Option.some.injEq] at h
  omega

theorem pyInt?_single_digit (c : Char) (h : isAsciiDigit c = true) :
    pyInt? (String.mk [c]) = some ((c.toNat - 48 : ℕ) : ℤ) := by
  have h' : 48 ≤ c.toNat ∧ c.toNat ≤ 57 := by
    simpa [isAsciiDigit] using h
  have hc1 : ¬ c = '-' := by rintro rfl; exact absurd h'.1 (by decide)
  have hc2 : ¬ c = '+' := by rintro rfl; exact absurd h'.1 (by decide)
  show (if c = '-' then (digitsVal? []).map (fun n => -(n : Int))
        else if c = '+' then (digitsVal? []).map (fun n => (n : Int))
        else (digitsVal? [c]).map (fun n => (n : Int))) = _
  rw [if_neg hc1, if_neg hc2]
  simp [digitsVal?, digitsCore, digitVal?_of_digit c h]

theorem colorFor_isSome (groups : List Char) (code : String) (c0 : Char)
    (cs : List Char) (hdata : code.data = c0 :: cs) (hd : isAsciiDigit c0 = true) :
    (colorFor groups code).isSome = true := by
  unfold colorFor
  rw [hdata]
  simp only [List.head?_cons]
  rw [pyInt?_single_digit c0 hd]
  simp

/-! ## Claims about the color assigner -/

/-- C7: with `n` distinct major groups in sorted order, the group at
0-based index `i` gets base hue exactly `i * 0.8 / n`, and every base hue
is below `0.8`, leaving the last fifth of the hue circle unused. -/
theorem majorGroupHue_formula (l : List String) (i : ℕ)
    (hi : i < (majorGroups l).length) :
    majorGroupHue l ((majorGroups l).get ⟨i, hi⟩) =
      (i : ℚ) * (4 / 5) / ((majorGroups l).length : ℚ) ∧
    majorGroupHue l ((majorGroups l).get ⟨i, hi⟩) < 4 / 5 := by
  have hnodup : (majorGroups l).Nodup := majorGroupsOf_nodup _
  have hidx : (majorGroups l).indexOf ((majorGroups l).get ⟨i, hi⟩) = i := by
    simpa using List.indexOf_getElem hnodup i hi
  have hform : majorGroupHue l ((majorGroups l).get ⟨i, hi⟩) =
      (i : ℚ) * (4 / 5) / ((majorGroups l).length : ℚ) := by
    unfold majorGroupHue majorGroupHueOf
    rw [hidx]
  refine ⟨hform, ?_⟩
  rw [hform]
  have hn0 : (0 : ℚ) < ((majorGroups l).length : ℚ) := by
    exact_mod_cast Nat.lt_of_le_of_lt (Nat.zero_le i) hi
  have hi' : (i : ℚ) < ((majorGroups l).length : ℚ) := by exact_mod_cast hi
  rw [div_lt_iff₀ hn0]
  nlinarith [hi', hn0]

/-- C7 witness: for the input `["11", "21"]` the group at index 1 has
base hue `1 * 0.8 / 2` and it is below `0.8`. -/
theorem majorGroupHue_formula_witness :
    majorGroupHue ["11", "21"] ((majorGroups ["11", "21"]).get ⟨1, by decide⟩) =
      ((1 : ℕ) : ℚ) * (4 / 5) / ((majorGroups ["11", "21"]).length : ℚ) ∧
    majorGroupHue ["11", "21"] ((majorGroups ["11", "21"]).get ⟨1, by decide⟩) < 4 / 5 :=
  majorGroupHue_formula ["11", "21"] 1 (by decide)

theorem data_ne_nil_of_headIsDigit (s : String) (h : headIsDigit s = true) :
    s.data ≠ [] := by
  intro hnil
  obtain ⟨cdata⟩ := s
  have hnil' : cdata = [] := hnil
  subst hnil'
  exact absurd h (by decide)

theorem isAsciiDigit_of_headIsDigit (s : String) (c0 : Char) (cs : List Char)
    (hdata : s.data = c0 :: cs) (h : headIsDigit s = true) :
    isAsciiDigit c0 = true := by
  obtain ⟨cdata⟩ := s
  have hdata' : cdata = c0 :: cs := hdata
  subst hdata'
  exact h

theorem pyInt?_nonneg_of_headIsDigit (c : String) (v : ℤ) (h : headIsDigit c = true)
    (hp : pyInt? c = some v) : 0 ≤ v := by
  obtain ⟨cdata⟩ := c
  rcases cdata with _ | ⟨c0, rest⟩
  · exact absurd h (by decide)
  · have hd : isAsciiDigit c0 = true := h
    have h' : 48 ≤ c0.toNat ∧ c0.toNat ≤ 57 := by simpa [isAsciiDigit] using hd
    have hc1 : ¬ c0 = '-' := by rintro rfl; exact absurd h'.1 (by decide)
    have hc2 : ¬ c0 = '+' := by rintro rfl; exact absurd h'.1 (by decide)
    have hp' : (if c0 = '-' then (digitsVal? rest).map (fun n => -(n : Int))
        else if c0 = '+' then (digitsVal? rest).map (fun n => (n : Int))
        else (digitsVal? (c0 :: rest)).map (fun n => (n : Int))) = some v := hp
    rw [if_neg hc1, if_neg hc2] at hp'
    rcases hdv : digitsVal? (c0 :: rest) with _ | n0
    · rw [hdv] at hp'
      simp at hp'
    · rw [hdv] at hp'
      simp at hp'
      omega

theorem decDigitChar_isDigit (m : ℕ) (h : m ≤ 9) :
    isAsciiDigit (decDigitChar m) = true := by
  interval_cases m <;> decide

theorem natToDecAux_head_digit : ∀ fuel n : ℕ, n < fuel →
    ∃ c : Char, ∃ cs : List Char,
      natToDecAux fuel n = c :: cs ∧ isAsciiDigit c = true := by
  intro fuel
  induction fuel with
  | zero => intro n hn; omega
  | succ f ih =>
    intro n hn
    by_cases h10 : n < 10
    · refine ⟨decDigitChar n, [], ?_, decDigitChar_isDigit n (by omega)⟩
      unfold natToDecAux
      rw [if_pos h10]
    · have hdiv : n / 10 < f := by
        have h1 : n / 10 < n := Nat.div_lt_self (by omega) (by omega)
        omega
      obtain ⟨c, cs, hcs, hcd⟩ := ih (n / 10) hdiv
      refine ⟨c, cs ++ [decDigitChar (n % 10)], ?_, hcd⟩
      unfold natToDecAux
      rw [if_neg h10, hcs]
      rfl

theorem headIsDigit_intStr_of_nonneg (v : ℤ) (h : 0 ≤ v) :
    headIsDigit (intStr v) = true := by
  unfold intStr
  rw [if_neg (not_lt.mpr h)]
  unfold natToDec
  obtain ⟨c, cs, hcs, hcd⟩ := natToDecAux_head_digit (v.toNat + 1) v.toNat (by omega)
  show (match natToDecAux (v.toNat + 1) v.toNat with
        | c :: _ => isAsciiDigit c
        | [] => false) = true
  rw [hcs]
  exact hcd

theorem tryParseAll_mem_some (l : List String) (ints : List ℤ)
    (h : tryParseAll l = some ints) :
    ∀ v ∈ ints, ∃ c ∈ l, pyInt? c = some v := by
  have hall : ∀ c ∈ l, (pyInt? c).isSome :=
    (tryParseAll_isSome_iff l).mp (by rw [h]; rfl)
  have heq : ints = l.map fun c => (pyInt? c).getD 0 := by
    have h2 := tryParseAll_eq_some l hall
    rw [h] at h2
    exact Option.some.inj h2
  intro v hv
  rw [heq] at hv
  obtain ⟨c, hcl, hcv⟩ := List.mem_map.mp hv
  refine ⟨c, hcl, ?_⟩
  obtain ⟨w, hw⟩ := Option.isSome_iff_exists.mp (hall c hcl)
  rw [hw] at hcv ⊢
  rw [Option.getD_some] at hcv
  rw [hcv]

theorem tryParseAll_mem_forward (l : List String) (ints : List ℤ)
    (h : tryParseAll l = some ints) (c : String) (hc : c ∈ l) (v : ℤ)
    (hv : pyInt? c = some v) : v ∈ ints := by
  have hall : ∀ c ∈ l, (pyInt? c).isSome :=
    (tryParseAll_isSome_iff l).mp (by rw [h]; rfl)
  have heq : ints = l.map fun c => (pyInt? c).getD 0 := by
    have h2 := tryParseAll_eq_some l hall
    rw [h] at h2
    exact Option.some.inj h2
  rw [heq]
  exact List.mem_map.mpr ⟨c, hc, by rw [hv]; rfl⟩

theorem sortedCodes_headDigit (l : List String) (h : ∀ c ∈ l, headIsDigit c = true) :
    ∀ c ∈ sortedCodes l, headIsDigit c = true := by
  intro c hc
  unfold sortedCodes at hc
  cases ht : tryParseAll l with
  | none =>
    rw [ht] at hc
    exact h c ((List.perm_insertionSort _ _).mem_iff.mp hc)
  | some ints =>
    rw [ht] at hc
    obtain ⟨v, hv, rfl⟩ := List.mem_map.mp hc
    have hv' : v ∈ ints := (List.perm_insertionSort _ _).mem_iff.mp hv
    obtain ⟨c0, hc0, hp⟩ := tryParseAll_mem_some l ints ht v hv'
    exact headIsDigit_intStr_of_nonneg v (pyInt?_nonneg_of_headIsDigit c0 v (h c0 hc0) hp)

theorem sortedCodes_mem_iff (l : List String)
    (hcanon : ∀ c ∈ l, ∀ v : ℤ, pyInt? c = some v → intStr v = c) :
    ∀ k, k ∈ sortedCodes l ↔ k ∈ l := by
  intro k
  unfold sortedCodes
  cases ht : tryParseAll l with
  | none => exact (List.perm_insertionSort _ _).mem_iff
  | some ints =>
    constructor
    · intro hk
      obtain ⟨v, hv, rfl⟩ := List.mem_map.mp hk
      have hv' : v ∈ ints := (List.perm_insertionSort _ _).mem_iff.mp hv
      obtain ⟨c, hcl, hp⟩ := tryParseAll_mem_some l ints ht v hv'
      rw [hcanon c hcl v hp]
      exact hcl
    · intro hkl
      have hks : (pyInt? k).isSome :=
        (tryParseAll_isSome_iff l).mp (by rw [ht]; rfl) k hkl
      obtain ⟨v, hv⟩ := Option.isSome_iff_exists.mp hks
      have hvints : v ∈ ints := tryParseAll_mem_forward l ints ht k hkl v hv
      exact List.mem_map.mpr
        ⟨v, (List.perm_insertionSort _ _).mem_iff.mpr hvints, hcanon k hkl v hv⟩

theorem dictKeys_dictInsert (d : List (String × String)) (k0 v : String) (k : String) :
    k ∈ dictKeys (dictInsert d k0 v) ↔ k = k0 ∨ k ∈ dictKeys d := by
  unfold dictInsert
  by_cases hc : (dictKeys d).contains k0
  · rw [if_pos hc]
    have hk0 : k0 ∈ dictKeys d := by
      simpa using List.elem_iff.mp hc
    have hkeys : dictKeys (d.map fun p => if p.1 = k0 then (k0, v) else p) = dictKeys d := by
      unfold dictKeys
      rw [List.map_map]
      refine List.map_congr_left ?_
      intro p _
      by_cases hp : p.1 = k0
      · simp [hp]
      · simp [hp]
    rw [hkeys]
    constructor
    · exact Or.inr
    · rintro (rfl | hk)
      · exact hk0
      · exact hk
  · rw [if_neg hc]
    unfold dictKeys
    rw [List.map_append]
    simp [or_comm]

theorem colorLoop_some_keys (groups : List Char) (codes : List String)
    (d : List (String × String))
    (h : ∀ c ∈ codes, c.data = [] ∨ headIsDigit c = true) :
    ∃ m, colorLoop groups d codes = some m ∧
      ∀ k, k ∈ dictKeys m ↔ (k ∈ dictKeys d ∨ (k ∈ codes ∧ k.data ≠ [])) := by
  induction codes generalizing d with
  | nil =>
    refine ⟨d, rfl, fun k => ?_⟩
    simp
  | cons code rest ih =>
    rcases h code (by simp) with hemp | hdig
    · have hstep : colorLoop groups d (code :: rest) = colorLoop groups d rest := by
        show (match code.data.head? with
              | none => colorLoop groups d rest
              | some _ =>
                match colorFor groups code with
                | none => none
                | some hex2 => colorLoop groups (dictInsert d code hex2) rest) =
            colorLoop groups d rest
        rw [hemp]
        rfl
      obtain ⟨m, hm, hk⟩ := ih d (fun c hc => h c (by simp [hc]))
      refine ⟨m, by rw [hstep]; exact hm, fun k => ?_⟩
      rw [hk k]
      constructor
      · rintro (hd0 | ⟨hkr, hkne⟩)
        · exact Or.inl hd0
        · exact Or.inr ⟨by simp [hkr], hkne⟩
      · rintro (hd0 | ⟨hkc, hkne⟩)
        · exact Or.inl hd0
        · rcases List.mem_cons.mp hkc with rfl | hkr
          · exact absurd hemp hkne
          · exact Or.inr ⟨hkr, hkne⟩
    · rcases hcd : code.data with _ | ⟨c0, cs⟩
      · exact absurd hcd (data_ne_nil_of_headIsDigit code hdig)
      · have hd0 : isAsciiDigit c0 = true := isAsciiDigit_of_headIsDigit code c0 cs hcd hdig
        have hsome := colorFor_isSome groups code c0 cs hcd hd0
        obtain ⟨hex, hhex⟩ := Option.isSome_iff_exists.mp hsome
        have hstep : colorLoop groups d (code :: rest) =
            colorLoop groups (dictInsert d code hex) rest := by
          show (match code.data.head? with
                | none => colorLoop groups d rest
                | some _ =>
                  match colorFor groups code with
                  | none => none
                  | some hex2 => colorLoop groups (dictInsert d code hex2) rest) =
              colorLoop groups (dictInsert d code hex) rest
          rw [hcd]
          simp only [List.head?_cons]
          rw [hhex]
        obtain ⟨m, hm, hk⟩ := ih (dictInsert d code hex) (fun c hc => h c (by simp [hc]))
        refine ⟨m, by rw [hstep]; exact hm, fun k => ?_⟩
        rw [hk k]
        constructor
        · rintro (hins | ⟨hkr, hkne⟩)
          · rcases (dictKeys_dictInsert d code hex k).mp hins with rfl | hkd
            · exact Or.inr ⟨by simp, by rw [hcd]; simp⟩
            · exact Or.inl hkd
          · exact Or.inr ⟨by simp [hkr], hkne⟩
        · rintro (hkd | ⟨hkc, hkne⟩)
          · exact Or.inl ((dictKeys_dictInsert d code hex k).mpr (Or.inr hkd))
          · rcases List.mem_cons.mp hkc with rfl | hkr
            · exact Or.inl ((dictKeys_dictInsert _ _ _ _).mpr (Or.inl rfl))
            · exact Or.inr ⟨hkr, hkne⟩

theorem hsv_to_rgb_bounds (h s v : ℚ) (hh : 0 ≤ h) (hs0 : 0 ≤ s) (hs1 : s ≤ 1)
    (hv0 : 0 ≤ v) (hv1 : v ≤ 1) :
    (0 ≤ (hsv_to_rgb h s v).1 ∧ (hsv_to_rgb h s v).1 ≤ 1) ∧
    (0 ≤ (hsv_to_rgb h s v).2.1 ∧ (hsv_to_rgb h s v).2.1 ≤ 1) ∧
    (0 ≤ (hsv_to_rgb h s v).2.2 ∧ (hsv_to_rgb h s v).2.2 ≤ 1) := by
  unfold hsv_to_rgb
  by_cases hs : s = 0
  · rw [if_pos hs]
    exact ⟨⟨hv0, hv1⟩, ⟨hv0, hv1⟩, ⟨hv0, hv1⟩⟩
  · rw [if_neg hs]
    dsimp only
    have htr : pyTrunc (h * 6) = ⌊h * 6⌋ := by
      unfold pyTrunc
      rw [if_pos (by positivity)]
    have hF0 : 0 ≤ h * 6 - ((pyTrunc (h * 6) : ℤ) : ℚ) := by
      rw [htr]
      exact Int.fract_nonneg (h * 6)
    have hF1 : h * 6 - ((pyTrunc (h * 6) : ℤ) : ℚ) < 1 := by
      rw [htr]
      exact Int.fract_lt_one (h * 6)
    set F : ℚ := h * 6 - ((pyTrunc (h * 6) : ℤ) : ℚ) with hF
    have hsF : s * F ≤ s := mul_le_of_le_one_right hs0 hF1.le
    have hsF0 : 0 ≤ s * F := mul_nonneg hs0 hF0
    have hsG : s * (1 - F) ≤ s := mul_le_of_le_one_right hs0 (by linarith)
    have hsG0 : 0 ≤ s * (1 - F) := mul_nonneg hs0 (by linarith)
    have hp0 : 0 ≤ v * (1 - s) := mul_nonneg hv0 (by linarith)
    have hp1 : v * (1 - s) ≤ 1 := by nlinarith
    have hq0 : 0 ≤ v * (1 - s * F) := mul_nonneg hv0 (by linarith)
    have hq1 : v * (1 - s * F) ≤ 1 := by nlinarith
    have ht0 : 0 ≤ v * (1 - s * (1 - F)) := mul_nonneg hv0 (by linarith)
    have ht1 : v * (1 - s * (1 - F)) ≤ 1 := by nlinarith
    split_ifs
    · exact ⟨⟨hv0, hv1⟩, ⟨ht0, ht1⟩, ⟨hp0, hp1⟩⟩
    · exact ⟨⟨hq0, hq1⟩, ⟨hv0, hv1⟩, ⟨hp0, hp1⟩⟩
    · exact ⟨⟨hp0, hp1⟩, ⟨hv0, hv1⟩, ⟨ht0, ht1⟩⟩
    · exact ⟨⟨hp0, hp1⟩, ⟨hq0, hq1⟩, ⟨hv0, hv1⟩⟩
    · exact ⟨⟨ht0, ht1⟩, ⟨hp0, hp1⟩, ⟨hv0, hv1⟩⟩
    · exact ⟨⟨hv0, hv1⟩, ⟨hp0, hp1⟩, ⟨hq0, hq1⟩⟩

theorem pyTrunc_scale_bounds (q : ℚ) (h0 : 0 ≤ q) (h1 : q ≤ 1) :
    0 ≤ pyTrunc (q * 255) ∧ pyTrunc (q * 255) ≤ 255 := by
  unfold pyTrunc
  rw [if_pos (by positivity : (0 : ℚ) ≤ q * 255)]
  constructor
  · exact Int.floor_nonneg.mpr (by positivity)
  · have hle : q * 255 ≤ ((255 : ℤ) : ℚ) := by push_cast; nlinarith
    calc ⌊q * 255⌋ ≤ ⌊((255 : ℤ) : ℚ)⌋ := Int.floor_le_floor hle
      _ = 255 := Int.floor_intCast 255

theorem natToHexAux_single (fuel k : ℕ) (hf : 1 ≤ fuel) (hk : k < 16) :
    natToHexAux fuel k = [hexDigitChar k] := by
  cases fuel with
  | zero => omega
  | succ f =>
    show (if k < 16 then [hexDigitChar k]
          else natToHexAux f (k / 16) ++ [hexDigitChar (k % 16)]) = _
    rw [if_pos hk]

theorem hexDigitChar_isLower (m : ℕ) (h : m < 16) :
    isLowerHexDigitChar (hexDigitChar m) = true := by
  interval_cases m <;> decide

theorem natToHex_two_digits (m : ℕ) (h16 : 16 ≤ m) (h255 : m ≤ 255) :
    natToHex m = [hexDigitChar (m / 16), hexDigitChar (m % 16)] := by
  unfold natToHex
  show (if m < 16 then [hexDigitChar m]
        else natToHexAux m (m / 16) ++ [hexDigitChar (m % 16)]) = _
  rw [if_neg (by omega)]
  rw [natToHexAux_single m (m / 16) (by omega) (by omega)]
  rfl

theorem format02x_valid (i : ℤ) (h0 : 0 ≤ i) (h255 : i ≤ 255) :
    ∃ a b : Char, (format02x i).data = [a, b] ∧
      isLowerHexDigitChar a = true ∧ isLowerHexDigitChar b = true := by
  unfold format02x
  rw [if_neg (by omega : ¬ i < 0)]
  have hm255 : i.toNat ≤ 255 := by omega
  by_cases h16 : i.toNat < 16
  · have hsingle : natToHex i.toNat = [hexDigitChar i.toNat] := by
      unfold natToHex
      exact natToHexAux_single (i.toNat + 1) i.toNat (by omega) h16
    rw [hsingle]
    rw [if_pos (by simp)]
    exact ⟨'0', hexDigitChar i.toNat, rfl, by decide, hexDigitChar_isLower i.toNat h16⟩
  · have htwo : natToHex i.toNat = [hexDigitChar (i.toNat / 16), hexDigitChar (i.toNat % 16)] :=
      natToHex_two_digits i.toNat (by omega) hm255
    rw [htwo]
    rw [if_neg (by simp)]
    exact ⟨hexDigitChar (i.toNat / 16), hexDigitChar (i.toNat % 16), rfl,
      hexDigitChar_isLower _ (by omega), hexDigitChar_isLower _ (by omega)⟩

theorem codeHueOf_nonneg (groups : List Char) (code : String) :
    0 ≤ codeHueOf groups code := by
  unfold codeHueOf
  cases hcd : code.data.head? with
  | none => exact le_refl 0
  | some c0 => exact Int.fract_nonneg _

theorem dictInsert_mem (d : List (String × String)) (k v : String) (p : String × String)
    (hp : p ∈ dictInsert d k v) : p ∈ d ∨ p.2 = v := by
  unfold dictInsert at hp
  split_ifs at hp with hc
  · obtain ⟨p0, hp0, hpe⟩ := List.mem_map.mp hp
    by_cases hpk : p0.1 = k
    · rw [if_pos hpk] at hpe
      right
      rw [← hpe]
    · rw [if_neg hpk] at hpe
      left
      rw [← hpe]
      exact hp0
  · rcases List.mem_append.mp hp with hpd | hps
    · exact Or.inl hpd
    · right
      have : p = (k, v) := by simpa using hps
      rw [this]

theorem validHexColor_of_parts (f1 f2 f3 : String)
    (h1 : ∃ a b : Char, f1.data = [a, b] ∧
      isLowerHexDigitChar a = true ∧ isLowerHexDigitChar b = true)
    (h2 : ∃ a b : Char, f2.data = [a, b] ∧
      isLowerHexDigitChar a = true ∧ isLowerHexDigitChar b = true)
    (h3 : ∃ a b : Char, f3.data = [a, b] ∧
      isLowerHexDigitChar a = true ∧ isLowerHexDigitChar b = true) :
    validHexColor ("#" ++ f1 ++ f2 ++ f3) = true := by
  obtain ⟨a1, b1, hd1, ha1, hb1⟩ := h1
  obtain ⟨a2, b2, hd2, ha2, hb2⟩ := h2
  obtain ⟨a3, b3, hd3, ha3, hb3⟩ := h3
  obtain ⟨d1⟩ := f1
  obtain ⟨d2⟩ := f2
  obtain ⟨d3⟩ := f3
  have hd1' : d1 = [a1, b1] := hd1
  have hd2' : d2 = [a2, b2] := hd2
  have hd3' : d3 = [a3, b3] := hd3
  subst hd1' hd2' hd3'
  simp [validHexColor, String.append, ha1, hb1, ha2, hb2, ha3, hb3]

theorem colorFor_valid (groups : List Char) (code : String) (hex : String)
    (h : colorFor groups code = some hex) : validHexColor hex = true := by
  unfold colorFor at h
  rcases hcd : code.data.head? with _ | c0
  · rw [hcd] at h
    simp at h
  · rw [hcd] at h
    dsimp only at h
    rcases hmg : pyInt? (String.mk [c0]) with _ | mg
    · rw [hmg] at h
      simp at h
    · rw [hmg] at h
      simp only [Option.some.injEq] at h
      have hh : 0 ≤ codeHueOf groups code := codeHueOf_nonneg groups code
      have hs0 : (0 : ℚ) ≤ (if mg % 2 = 1 then (17 : ℚ) / 20 else 3 / 4) := by
        split_ifs <;> norm_num
      have hs1 : (if mg % 2 = 1 then (17 : ℚ) / 20 else 3 / 4) ≤ 1 := by
        split_ifs <;> norm_num
      have hv0 : (0 : ℚ) ≤ (if mg % 2 = 1 then (9 : ℚ) / 10 else 19 / 20) := by
        split_ifs <;> norm_num
      have hv1 : (if mg % 2 = 1 then (9 : ℚ) / 10 else 19 / 20) ≤ 1 := by
        split_ifs <;> norm_num
      obtain ⟨⟨hr0, hr1⟩, ⟨hg0, hg1⟩, ⟨hb0, hb1⟩⟩ :=
        hsv_to_rgb_bounds (codeHueOf groups code)
          (if mg % 2 = 1 then (17 : ℚ) / 20 else 3 / 4)
          (if mg % 2 = 1 then (9 : ℚ) / 10 else 19 / 20) hh hs0 hs1 hv0 hv1
      obtain ⟨hR0, hR1⟩ := pyTrunc_scale_bounds _ hr0 hr1
      obtain ⟨hG0, hG1⟩ := pyTrunc_scale_bounds _ hg0 hg1
      obtain ⟨hB0, hB1⟩ := pyTrunc_scale_bounds _ hb0 hb1
      rw [← h]
      exact validHexColor_of_parts _ _ _
        (format02x_valid _ hR0 hR1) (format02x_valid _ hG0 hG1) (format02x_valid _ hB0 hB1)

theorem colorLoop_values (groups : List Char) (codes : List String)
    (d m : List (String × String))
    (hd : ∀ p ∈ d, validHexColor p.2 = true)
    (h : colorLoop groups d codes = some m) :
    ∀ p ∈ m, validHexColor p.2 = true := by
  induction codes generalizing d with
  | nil =>
    have hdm : d = m := Option.some.inj h
    rw [← hdm]
    exact hd
  | cons code rest ih =>
    revert h
    show (match code.data.head? with
          | none => colorLoop groups d rest
          | some _ =>
            match colorFor groups code with
            | none => none
            | some hex2 => colorLoop groups (dictInsert d code hex2) rest) = some m → _
    cases hcd : code.data.head? with
    | none =>
      intro h
      exact ih d hd h
    | some c0 =>
      cases hcf : colorFor groups code with
      | none =>
        intro h
        exact absurd h (by simp)
      | some hex =>
        intro h
        refine ih (dictInsert d code hex) ?_ h
        intro p hp
        rcases dictInsert_mem d code hex p hp with hpd | hp2
        · exact hd p hpd
        · rw [hp2]
          exact colorFor_valid groups code hex hcf

theorem head_mem_majorGroupsOf (s : List String) (code : String) (c0 : Char)
    (cs : List Char) (hmem : code ∈ s) (hdata : code.data = c0 :: cs) :
    c0 ∈ majorGroupsOf s := by
  unfold majorGroupsOf
  refine (List.perm_insertionSort _ _).mem_iff.mpr ?_
  rw [List.mem_dedup]
  exact List.mem_filterMap.mpr ⟨code, hmem, by rw [hdata]; rfl⟩

theorem minorVariationOf_bounds (n : ℕ) (code : String) :
    0 ≤ minorVariationOf n code ∧
    minorVariationOf n code ≤ 9 * ((4 / 5) / (n : ℚ)) / 12 := by
  have hx : (0 : ℚ) ≤ (4 / 5) / (n : ℚ) := by positivity
  obtain ⟨cdata⟩ := code
  rcases cdata with _ | ⟨c0, cs⟩
  · exact ⟨le_refl _, by positivity⟩
  rcases cs with _ | ⟨c1, cs'⟩
  · exact ⟨le_refl _, by positivity⟩
  cases hd : digitVal? c1 with
  | none =>
    constructor
    · simp [minorVariationOf, hd]
    · simp only [minorVariationOf, hd]
      positivity
  | some d =>
    have hd9 : (d : ℚ) ≤ 9 := by exact_mod_cast digitVal?_le_nine c1 d hd
    constructor
    · simp only [minorVariationOf, hd]
      positivity
    · simp only [minorVariationOf, hd]
      gcongr

theorem codeHue_band (l : List String) (code : String) (c0 : Char) (cs : List Char)
    (hmem : code ∈ sortedCodes l) (hdata : code.data = c0 :: cs) :
    majorGroupHue l c0 ≤ codeHue l code ∧
    codeHue l code ≤ majorGroupHue l c0 +
      9 * ((4 / 5) / ((majorGroups l).length : ℚ)) / 12 := by
  obtain ⟨cdata⟩ := code
  have hdata' : cdata = c0 :: cs := hdata
  subst hdata'
  have hc0 : c0 ∈ majorGroups l :=
    head_mem_majorGroupsOf (sortedCodes l) (String.mk (c0 :: cs)) c0 cs hmem rfl
  have hn0 : 0 < (majorGroups l).length := List.length_pos_of_mem hc0
  have hidx : (majorGroups l).indexOf c0 < (majorGroups l).length :=
    List.indexOf_lt_length.mpr hc0
  have hN1 : (1 : ℚ) ≤ ((majorGroups l).length : ℚ) := by exact_mod_cast hn0
  have hN0 : (0 : ℚ) < ((majorGroups l).length : ℚ) := zero_lt_one.trans_le hN1
  have hbase0 : 0 ≤ majorGroupHue l c0 := by
    unfold majorGroupHue majorGroupHueOf
    positivity
  have hbase1 : majorGroupHue l c0 ≤
      (((majorGroups l).length : ℚ) - 1) * (4 / 5) / ((majorGroups l).length : ℚ) := by
    unfold majorGroupHue majorGroupHueOf
    have hi' : (((majorGroups l).indexOf c0 : ℕ) : ℚ) ≤ ((majorGroups l).length : ℚ) - 1 := by
      have h1 : ((majorGroups l).indexOf c0 : ℕ) + 1 ≤ (majorGroups l).length := hidx
      have h2 : ((((majorGroups l).indexOf c0 : ℕ) : ℚ) + 1) ≤ ((majorGroups l).length : ℚ) := by
        exact_mod_cast h1
      linarith
    gcongr
  obtain ⟨hv0, hv1⟩ := minorVariationOf_bounds (majorGroups l).length (String.mk (c0 :: cs))
  have hlt1 : majorGroupHue l c0 +
      minorVariationOf (majorGroups l).length (String.mk (c0 :: cs)) < 1 := by
    have h2 : (((majorGroups l).length : ℚ) - 1) * (4 / 5) / ((majorGroups l).length : ℚ) +
        9 * ((4 / 5) / ((majorGroups l).length : ℚ)) / 12 =
        ((((majorGroups l).length : ℚ) - 1) * (4 / 5) + 3 / 5) / ((majorGroups l).length : ℚ) := by
      field_simp
      ring
    have h3 : ((((majorGroups l).length : ℚ) - 1) * (4 / 5) + 3 / 5) /
        ((majorGroups l).length : ℚ) < 1 := by
      rw [div_lt_one hN0]
      linarith
    linarith
  have hfr : codeHue l (String.mk (c0 :: cs)) = majorGroupHue l c0 +
      minorVariationOf (majorGroups l).length (String.mk (c0 :: cs)) := by
    show Int.fract _ = _
    exact Int.fract_eq_self.mpr ⟨add_nonneg hbase0 hv0, hlt1⟩
  rw [hfr]
  exact ⟨le_add_of_nonneg_right hv0, add_le_add_left hv1 _⟩

/-- C2 counterexample: for the input `["19", "21"]` (two major groups,
slice width `0.8 / 2`), the code `"19"` gets minor variation
`9 * (0.8 / 2) / 12 = 0.3`, which exceeds `1/12` of the slice width, and
this full offset is what enters the assigned hue. -/
theorem minorVariation_exceeds_one_twelfth_of_slice :
    minorVariationOf (majorGroups ["19", "21"]).length "19" >
      1 / 12 * ((4 / 5) / ((majorGroups ["19", "21"]).length : ℚ)) ∧
    codeHue ["19", "21"] "19" =
      majorGroupHue ["19", "21"] '1' +
        minorVariationOf (majorGroups ["19", "21"]).length "19" := by
  with_unfolding_all decide

/-- C2 (amended): for a code accepted by the assigner, a present decimal
second digit `d` contributes a minor-variation offset of exactly
`d * ((0.8 / n) / 12)` — `d` twelfths of the major group's hue slice
width, hence at most `9/12` of it — added to the base hue and wrapped
modulo 1.0; a one-character code or a non-digit second character yields
an offset of exactly 0, and neither case raises (the color for the code
is still produced whenever its first character is a digit). -/
theorem minorVariation_formula (l : List String) (code : String) (c0 : Char)
    (cs : List Char) (hdata : code.data = c0 :: cs) :
    codeHue l code =
      pyMod1 (majorGroupHue l c0 + minorVariationOf (majorGroups l).length code) ∧
    (∀ c1 cs', cs = c1 :: cs' → ∀ d : ℕ, digitVal? c1 = some d →
      minorVariationOf (majorGroups l).length code =
        (d : ℚ) * ((4 / 5) / ((majorGroups l).length : ℚ)) / 12 ∧
      minorVariationOf (majorGroups l).length code ≤
        9 * ((4 / 5) / ((majorGroups l).length : ℚ)) / 12) ∧
    ((cs = [] ∨ ∀ c1 cs', cs = c1 :: cs' → digitVal? c1 = none) →
      minorVariationOf (majorGroups l).length code = 0) ∧
    (isAsciiDigit c0 = true → (colorFor (majorGroups l) code).isSome = true) := by
  obtain ⟨cdata⟩ := code
  have hdata' : cdata = c0 :: cs := hdata
  subst hdata'
  refine ⟨?_, ?_, ?_, ?_⟩
  · rfl
  · intro c1 cs' hcs d hd1
    subst hcs
    have hform : minorVariationOf (majorGroups l).length (String.mk (c0 :: c1 :: cs')) =
        (d : ℚ) * ((4 / 5) / ((majorGroups l).length : ℚ)) / 12 := by
      simp [minorVariationOf, hd1]
    refine ⟨hform, ?_⟩
    rw [hform]
    have hd9 : (d : ℚ) ≤ 9 := by exact_mod_cast digitVal?_le_nine c1 d hd1
    have hx : (0 : ℚ) ≤ (4 / 5) / (((majorGroups l).length : ℕ) : ℚ) := by positivity
    gcongr
  · rintro (rfl | hnd)
    · rfl
    · rcases cs with _ | ⟨c1, cs'⟩
      · rfl
      · simp [minorVariationOf, hnd c1 cs' rfl]
  · intro hd0
    exact colorFor_isSome (majorGroups l) (String.mk (c0 :: cs)) c0 cs rfl hd0

/-- C2 witness: for the input `["19", "21"]` the second digit 9 of
`"19"` contributes exactly `9 * ((0.8 / 2) / 12)`, within `9/12` of the
slice width. -/
theorem minorVariation_formula_witness :
    minorVariationOf (majorGroups ["19", "21"]).length "19" =
      ((9 : ℕ) : ℚ) * ((4 / 5) / ((majorGroups ["19", "21"]).length : ℚ)) / 12 ∧
    minorVariationOf (majorGroups ["19", "21"]).length "19" ≤
      9 * ((4 / 5) / ((majorGroups ["19", "21"]).length : ℚ)) / 12 :=
  (minorVariation_formula ["19", "21"] "19" '1' ['9'] (by decide)).2.1 '9' [] rfl 9 (by decide)

/-- C4 counterexample: on the input `["a"]` the assigner raises — the
`int(major_group)` call on app.py line 82 is outside any try block, so a
code whose first character is not a digit is a fatal error, not a
sort-fallback. -/
theorem generate_raises_on_nondigit_head :
    generate_isco_grouped_colors ["a"] = none := by
  with_unfolding_all decide

/-- C4 (amended): for every non-empty collection of codes each of which
is nonempty and starts with a decimal digit, the assigner completes and
returns a mapping; a failed integer parse of a full code only triggers
the lexicographic-sort fallback. -/
theorem generate_completes_of_digit_heads (l : List String) (_hne : l ≠ [])
    (h : ∀ c ∈ l, headIsDigit c = true) :
    (generate_isco_grouped_colors l).isSome = true ∧
    (tryParseAll l = none → sortedCodes l = List.insertionSort (· ≤ ·) l) := by
  constructor
  · have hall : ∀ c ∈ sortedCodes l, c.data = [] ∨ headIsDigit c = true :=
      fun c hc => Or.inr (sortedCodes_headDigit l h c hc)
    obtain ⟨m, hm, -⟩ :=
      colorLoop_some_keys (majorGroupsOf (sortedCodes l)) (sortedCodes l) [] hall
    show (generateFromSorted (sortedCodes l)).isSome = true
    unfold generateFromSorted
    rw [hm]
    rfl
  · intro hnone
    unfold sortedCodes
    rw [hnone]

/-- C4 witness: the spec's fallback example `["11", "2a"]` completes,
and its sort order is the lexicographic fallback. -/
theorem generate_completes_of_digit_heads_witness :
    (generate_isco_grouped_colors ["11", "2a"]).isSome = true ∧
    sortedCodes ["11", "2a"] = List.insertionSort (· ≤ ·) ["11", "2a"] :=
  ⟨(generate_completes_of_digit_heads ["11", "2a"] (by decide) (by decide)).1,
   (generate_completes_of_digit_heads ["11", "2a"] (by decide) (by decide)).2 (by decide)⟩

/-- C1 counterexample: for the input `["011"]` the returned mapping has
the single key `"11"` — the canonical decimal form produced by
`str(int(code))` — so the key set is not the set of distinct input
codes. -/
theorem generate_keys_drop_noncanonical_code :
    (generate_isco_grouped_colors ["011"]).map dictKeys = some ["11"] ∧
    ("011" : String) ≠ "11" := by
  constructor
  · with_unfolding_all decide
  · decide

/-- C1 (amended): for every non-empty collection of codes that are
nonempty, start with a decimal digit, and (when integer-parseable) equal
their canonical decimal rendering `str(int(code))`, the assigner returns
a mapping whose key set equals the set of distinct input codes — no key
missing, none extra, duplicates ignored. -/
theorem generate_keys_exact (l : List String) (_hne : l ≠ [])
    (hdig : ∀ c ∈ l, headIsDigit c = true)
    (hcanon : ∀ c ∈ l, ∀ v : ℤ, pyInt? c = some v → intStr v = c) :
    ∃ m, generate_isco_grouped_colors l = some m ∧
      ∀ k : String, (k ∈ dictKeys m ↔ k ∈ l) := by
  have hall : ∀ c ∈ sortedCodes l, c.data = [] ∨ headIsDigit c = true :=
    fun c hc => Or.inr (sortedCodes_headDigit l hdig c hc)
  obtain ⟨m, hm, hk⟩ :=
    colorLoop_some_keys (majorGroupsOf (sortedCodes l)) (sortedCodes l) [] hall
  refine ⟨m, hm, fun k => ?_⟩
  rw [hk k]
  simp only [dictKeys, List.map_nil, List.not_mem_nil, false_or]
  constructor
  · rintro ⟨hks, -⟩
    exact (sortedCodes_mem_iff l hcanon k).mp hks
  · intro hkl
    exact ⟨(sortedCodes_mem_iff l hcanon k).mpr hkl,
      data_ne_nil_of_headIsDigit k (hdig k hkl)⟩

/-- C1 witness: the amended key-set property applied to the concrete
input `["21", "11"]`. -/
theorem generate_keys_exact_witness :
    (generate_isco_grouped_colors ["21", "11"]).isSome = true := by
  have hcanon : ∀ c ∈ (["21", "11"] : List String), ∀ v : ℤ,
      pyInt? c = some v → intStr v = c := by
    intro c hc v hv
    fin_cases hc
    · rw [show pyInt? "21" = some 21 from by decide] at hv
      obtain rfl := Option.some.inj hv
      decide
    · rw [show pyInt? "11" = some 11 from by decide] at hv
      obtain rfl := Option.some.inj hv
      decide
  obtain ⟨m, hm, -⟩ := generate_keys_exact ["21", "11"] (by decide) (by decide) hcanon
  rw [hm]
  rfl

/-- C6: every value in a mapping returned by the color assigner is a
valid 6-digit lowercase hexadecimal color string prefixed with `#`
(each channel an integer in `[0, 255]` rendered as two lowercase hex
digits). -/
theorem generate_values_valid_hex (l : List String) (m : List (String × String))
    (h : generate_isco_grouped_colors l = some m) :
    ∀ p ∈ m, validHexColor p.2 = true :=
  colorLoop_values (majorGroupsOf (sortedCodes l)) (sortedCodes l) [] m (by simp) h

/-- C6 witness: the color produced for the concrete input `["11"]` is a
valid lowercase hex color. -/
theorem generate_values_valid_hex_witness :
    validHexColor "#e57022" = true :=
  generate_values_valid_hex ["11"] [("11", "#e57022")] (by with_unfolding_all decide)
    ("11", "#e57022") (by simp)

/-- C3 counterexample: for the input `["10", "19", "21", "31"]` (three
major groups), the same-group codes `"10"` and `"19"` are further apart
on the hue circle than `"19"` is from the base hue of the different major
group `'2'`. -/
theorem same_group_hue_distance_counterexample :
    3 ≤ (majorGroups ["10", "19", "21", "31"]).length ∧
    hueDist (codeHue ["10", "19", "21", "31"] "10") (codeHue ["10", "19", "21", "31"] "19") >
      hueDist (codeHue ["10", "19", "21", "31"] "19")
        (majorGroupHue ["10", "19", "21", "31"] '2') := by
  with_unfolding_all decide

/-- C3 (amended): with at least 3 major groups, codes sharing a first
character have hues confined to the band from that group's base hue to
the base hue plus `9/12` of the group's hue slice width; and for the
input `{"11", "12", "21"}` all three keys are present and `"11"` and
`"12"` have hues closer to each other than either is to the hue of
`"21"`. -/
theorem same_group_hue_band_and_example :
    (∀ l : List String, ∀ code : String, ∀ c0 : Char, ∀ cs : List Char,
      code ∈ sortedCodes l → code.data = c0 :: cs →
      3 ≤ (majorGroups l).length →
      majorGroupHue l c0 ≤ codeHue l code ∧
      codeHue l code ≤ majorGroupHue l c0 +
        9 * ((4 / 5) / ((majorGroups l).length : ℚ)) / 12) ∧
    ((generate_isco_grouped_colors ["11", "12", "21"]).map dictKeys =
        some ["11", "12", "21"] ∧
      hueDist (codeHue ["11", "12", "21"] "11") (codeHue ["11", "12", "21"] "12") <
        hueDist (codeHue ["11", "12", "21"] "11") (codeHue ["11", "12", "21"] "21") ∧
      hueDist (codeHue ["11", "12", "21"] "11") (codeHue ["11", "12", "21"] "12") <
        hueDist (codeHue ["11", "12", "21"] "12") (codeHue ["11", "12", "21"] "21")) := by
  constructor
  · intro l code c0 cs hmem hdata _hn
    exact codeHue_band l code c0 cs hmem hdata
  · with_unfolding_all decide

/-- C3 witness: the band property instantiated at the code `"11"` of the
three-group input `["11", "21", "31"]`. -/
theorem same_group_hue_band_and_example_witness :
    majorGroupHue ["11", "21", "31"] '1' ≤ codeHue ["11", "21", "31"] "11" ∧
    codeHue ["11", "21", "31"] "11" ≤ majorGroupHue ["11", "21", "31"] '1' +
      9 * ((4 / 5) / ((majorGroups ["11", "21", "31"]).length : ℚ)) / 12 :=
  same_group_hue_band_and_example.1 ["11", "21", "31"] "11" '1' ['1']
    (by decide) (by decide) (by decide)

/-! ## Claims about the misclassified-jobs callbacks -/

/-- C8: flagging a record whose (translated title, category code) pair
already appears in the store leaves the store unchanged and returns the
"already in list" notice; flagging a record not yet present appends
exactly one entry. -/
theorem add_to_misclassified_duplicate_or_append
    (n_clicks : ℕ) (lc : ClickedData) (now : String) (current : List MisEntry)
    (hn : n_clicks ≠ 0) :
    ((∃ e ∈ current, e.title_en = lc.title_en ∧ e.isco2d = lc.isco2d) →
        add_to_misclassified n_clicks (some lc) now current =
          (current, "This job is already in the misclassified list!")) ∧
    ((∀ e ∈ current, ¬(e.title_en = lc.title_en ∧ e.isco2d = lc.isco2d)) →
        add_to_misclassified n_clicks (some lc) now current =
          (current ++ [mkMisEntry lc now current.length],
            "Added to misclassified jobs list!")) := by
  refine ⟨fun hdup => ?_, fun hno => ?_⟩
  · have hany : (current.any fun e => e.title_en = lc.title_en && e.isco2d = lc.isco2d) = true := by
      rcases hdup with ⟨e, he, h1, h2⟩
      exact List.any_eq_true.mpr ⟨e, he, by simp [h1, h2]⟩
    simp [add_to_misclassified, hn, hany]
  · have hany : (current.any fun e => e.title_en = lc.title_en && e.isco2d = lc.isco2d) = false := by
      refine List.any_eq_false.mpr ?_
      intro e he
      simpa using hno e he
    simp [add_to_misclassified, hn, hany]

/-- C8 witness: a concrete duplicate flag is rejected with the notice and
a concrete fresh flag appends one entry. -/
theorem add_to_misclassified_duplicate_or_append_witness :
    add_to_misclassified 1 (some ⟨"11", "Engineer", 1, 2, "t", "s"⟩) "d2"
        [mkMisEntry ⟨"11", "Engineer", 1, 2, "t", "s"⟩ "d1" 0] =
      ([mkMisEntry ⟨"11", "Engineer", 1, 2, "t", "s"⟩ "d1" 0],
        "This job is already in the misclassified list!") ∧
    add_to_misclassified 1 (some ⟨"11", "Engineer", 1, 2, "t", "s"⟩) "d1" [] =
      ([mkMisEntry ⟨"11", "Engineer", 1, 2, "t", "s"⟩ "d1" 0],
        "Added to misclassified jobs list!") :=
  ⟨(add_to_misclassified_duplicate_or_append 1 _ "d2" _ (by decide)).1
      ⟨mkMisEntry ⟨"11", "Engineer", 1, 2, "t", "s"⟩ "d1" 0, by simp, rfl, rfl⟩,
   (add_to_misclassified_duplicate_or_append 1 _ "d1" [] (by decide)).2 (by simp)⟩

/-- C9: a click whose category code, translated title and 3-decimal
rounded coordinates match no dataframe row renders the details panel with
the placeholder original title instead of raising. -/
theorem display_click_lookup_miss (df : List Row) (color_map : List (String × String))
    (pt : ClickPoint)
    (h : ∀ r ∈ df, rowMatches r pt.isco2d pt.title_en pt.x pt.y = false) :
    (display_click df color_map pt).1.title = "Original title not available" ∧
    (display_click df color_map pt).1.isco2d = pt.isco2d ∧
    (display_click df color_map pt).1.title_en = pt.title_en ∧
    (display_click df color_map pt).2.title = "Original title not available" := by
  have hfil : df.filter (fun r => rowMatches r pt.isco2d pt.title_en pt.x pt.y) = [] :=
    List.filter_eq_nil_iff.mpr fun r hr => by simp [h r hr]
  simp [display_click, hfil]

/-- C9 witness: a concrete click over an empty dataframe shows the
placeholder title and still carries the clicked category and translated
title into the panel. -/
theorem display_click_lookup_miss_witness :
    (display_click [] [] ⟨"Engineer", "11", 1, 2⟩).1.title = "Original title not available" ∧
    (display_click [] [] ⟨"Engineer", "11", 1, 2⟩).1.isco2d = "11" ∧
    (display_click [] [] ⟨"Engineer", "11", 1, 2⟩).1.title_en = "Engineer" ∧
    (display_click [] [] ⟨"Engineer", "11", 1, 2⟩).2.title = "Original title not available" :=
  display_click_lookup_miss [] [] ⟨"Engineer", "11", 1, 2⟩ (by simp)

/-- C10: in every store state reachable from the empty list via the add
and clear callbacks, the entry at 0-based index `i` carries
`id = str(i + 1)`; rejected duplicates consume no id and clearing
restarts the numbering. -/
theorem reachable_store_ids (s : List MisEntry) (h : ReachableStore s) :
    idsSequential s := by
  induction h with
  | init => intro i hi; simp at hi
  | @add n lc now s hs ih =>
    rcases lc with _ | lc
    · exact ih
    · by_cases hn : n = 0
      · have hres : (add_to_misclassified n (some lc) now s).1 = s := by
          simp [add_to_misclassified, hn]
        rw [hres]; exact ih
      · by_cases hd : (s.any fun e => e.title_en = lc.title_en && e.isco2d = lc.isco2d) = true
        · have hres : (add_to_misclassified n (some lc) now s).1 = s := by
            simp [add_to_misclassified, hn, hd]
          rw [hres]; exact ih
        · have hres : (add_to_misclassified n (some lc) now s).1 =
              s ++ [mkMisEntry lc now s.length] := by
            simp [add_to_misclassified, hn, hd]
          rw [hres]
          intro i hi
          rcases Nat.lt_succ_iff_lt_or_eq.mp (by simpa using hi) with hlt | heq
          · rw [List.get_eq_getElem, List.getElem_append_left hlt]
            simpa using ih i hlt
          · subst heq
            have hget : (s ++ [mkMisEntry lc now s.length]).get ⟨s.length, hi⟩ =
                mkMisEntry lc now s.length := by
              simp
            rw [hget]
            rfl
  | clear n hs ih =>
    intro i hi
    simp [clear_misclassified] at hi

/-- C5: the color assigner is a pure, deterministic function of the input
set: two iteration orders of the same collection of codes yield identical
mappings. -/
theorem generate_isco_grouped_colors_order_invariant (l1 l2 : List String)
    (h : List.Perm l1 l2) :
    generate_isco_grouped_colors l1 = generate_isco_grouped_colors l2 := by
  unfold generate_isco_grouped_colors
  rw [sortedCodes_perm_eq l1 l2 h]

/-- C5 witness: two concrete iteration orders of the same set give the
same mapping. -/
theorem generate_isco_grouped_colors_order_invariant_witness :
    List.Perm ["11", "21"] ["21", "11"] ∧
    generate_isco_grouped_colors ["11", "21"] = generate_isco_grouped_colors ["21", "11"] :=
  ⟨by decide, generate_isco_grouped_colors_order_invariant ["11", "21"] ["21", "11"] (by decide)⟩

/-- C10 witness: after one concrete add from the empty store the single
entry has id `"1"`. -/
theorem reachable_store_ids_witness :
    (((add_to_misclassified 1 (some ⟨"11", "Engineer", 1, 2, "t", "s"⟩) "d" []).1).get
        ⟨0, by decide⟩).id = intStr ((0 : ℤ) + 1) :=
  reachable_store_ids _
    (ReachableStore.add 1 (some ⟨"11", "Engineer", 1, 2, "t", "s"⟩) "d" ReachableStore.init)
    0 (by decide)

end JobViz
